import Mathlib

/-!
Verification of the core game logic of the 2048 implementation
(`utils/gameLogic.ts` and the `useGameLogic` hook).

The grid is 4x4 (GRID_CONFIG.SIZE = 4); a cell holds a number or `null`.
Randomness (position index of the spawned tile, and whether the spawned
value is 4 rather than 2) is modelled by explicit parameters, quantified
over in the theorems.
-/

namespace Game2048

/-- A cell is `number | null` in the source: a tile value or empty. -/
abbrev Cell := Option Nat

/-- A line is an array of cells (one row or column, extracted for processing). -/
abbrev Line := List Cell

/-- The 4x4 board, indexed by row and column. -/
abbrev Grid := Fin 4 → Fin 4 → Cell

/-- The four move directions. -/
inductive Direction where
  | up
  | down
  | left
  | right
deriving DecidableEq

/-- `createEmptyGrid`: a 4x4 grid with every cell `null`. -/
def createEmptyGrid : Grid := fun _ _ => none

/-- A row of the grid, as the array `grid[row]` handed to `processLine`. -/
def rowOf (g : Grid) (r : Fin 4) : Line := [g r 0, g r 1, g r 2, g r 3]

/-- A column of the grid, extracted exactly as in the source:
`[grid[0][col], grid[1][col], grid[2][col], grid[3][col]]`. -/
def colOf (g : Grid) (c : Fin 4) : Line := [g 0 c, g 1 c, g 2 c, g 3 c]

/-- The merge loop of `processLine` (step 2): a single left-to-right pass
over the dense (null-free) line; an adjacent equal pair becomes one cell of
double the value, the doubled value is added to the score, and the scan
advances past both tiles. Returns the merged line and the score gained. -/
def mergeLine : List Nat → List Nat × Nat
  | [] => ([], 0)
  | [a] => ([a], 0)
  | a :: b :: rest =>
    if a = b then
      let r := mergeLine rest
      (a * 2 :: r.1, r.2 + a * 2)
    else
      let r := mergeLine (b :: rest)
      (a :: r.1, r.2)

/-- Step 3 of `processLine`: pad with `null` on the right up to length 4. -/
def padLine (l : Line) : Line := l ++ List.replicate (4 - l.length) none

/-- The record returned by `processLine`. -/
structure LineResult where
  newLine : Line
  changed : Bool
  scoreGained : Nat

/-- `processLine`: drop nulls, merge adjacent equal pairs in one pass,
pad to length 4; `changed` compares the result with the original line. -/
def processLine (line : Line) : LineResult :=
  let filtered := line.filterMap id
  let m := mergeLine filtered
  let nl := padLine (m.1.map some)
  { newLine := nl, changed := decide (nl ≠ line), scoreGained := m.2 }

/-- The record returned by `moveGrid`. -/
structure MoveResult where
  newGrid : Grid
  moved : Bool
  scoreGained : Nat

/-- `moveGrid`: apply `processLine` to each row (left), reversed row (right),
column (up) or reversed column (down); a line is written back only when its
`changed` flag is set, `moved` is or-ed and the score added only then, exactly
as in the source loop. -/
def moveGrid (g : Grid) (d : Direction) : MoveResult :=
  match d with
  | .left =>
    let res := fun r : Fin 4 => processLine (rowOf g r)
    { newGrid := fun r c => if (res r).changed then (res r).newLine.getD c.val none else g r c
      moved := (List.finRange 4).any fun r => (res r).changed
      scoreGained :=
        ((List.finRange 4).map fun r =>
          if (res r).changed then (res r).scoreGained else 0).sum }
  | .right =>
    let res := fun r : Fin 4 => processLine (rowOf g r).reverse
    { newGrid := fun r c =>
        if (res r).changed then (res r).newLine.reverse.getD c.val none else g r c
      moved := (List.finRange 4).any fun r => (res r).changed
      scoreGained :=
        ((List.finRange 4).map fun r =>
          if (res r).changed then (res r).scoreGained else 0).sum }
  | .up =>
    let res := fun c : Fin 4 => processLine (colOf g c)
    { newGrid := fun r c => if (res c).changed then (res c).newLine.getD r.val none else g r c
      moved := (List.finRange 4).any fun c => (res c).changed
      scoreGained :=
        ((List.finRange 4).map fun c =>
          if (res c).changed then (res c).scoreGained else 0).sum }
  | .down =>
    let res := fun c : Fin 4 => processLine (colOf g c).reverse
    { newGrid := fun r c =>
        if (res c).changed then (res c).newLine.reverse.getD r.val none else g r c
      moved := (List.finRange 4).any fun c => (res c).changed
      scoreGained :=
        ((List.finRange 4).map fun c =>
          if (res c).changed then (res c).scoreGained else 0).sum }

/-- The lines `moveGrid` feeds to `processLine` for a given direction. -/
def linesOf (g : Grid) (d : Direction) : List Line :=
  match d with
  | .left => (List.finRange 4).map fun r => rowOf g r
  | .right => (List.finRange 4).map fun r => (rowOf g r).reverse
  | .up => (List.finRange 4).map fun c => colOf g c
  | .down => (List.finRange 4).map fun c => (colOf g c).reverse

/-- `isGameOver`: false if some cell is empty, false if some horizontally
adjacent pair of cells is equal, false if some vertically adjacent pair is
equal, true otherwise. -/
def isGameOver (g : Grid) : Bool :=
  if ∃ r c : Fin 4, g r c = none then false
  else if ∃ (r : Fin 4) (c : Fin 3), g r c.castSucc = g r c.succ then false
  else if ∃ (r : Fin 3) (c : Fin 4), g r.castSucc c = g r.succ c then false
  else true

/-- `hasWon`: some cell equals GRID_CONFIG.WINNING_TILE = 2048. -/
def hasWon (g : Grid) : Bool :=
  if ∃ r c : Fin 4, g r c = some 2048 then true else false

/-- `getEmptyCells`: the coordinates of the empty cells, scanned row-major. -/
def getEmptyCells (g : Grid) : List (Fin 4 × Fin 4) :=
  (List.finRange 4).flatMap fun r =>
    (List.finRange 4).filterMap fun c => if g r c = none then some (r, c) else none

/-- `addRandomTile`: if the grid has no empty cell, return it unchanged;
otherwise place a new tile (4 when the value draw says so, else 2) at the
empty cell selected by the position draw. The source draws
`Math.floor(Math.random() * emptyCells.length)`, always in range; the draw
is modelled by an arbitrary `idx : Nat` reduced mod the list length. -/
def addRandomTile (g : Grid) (idx : Nat) (drawFour : Bool) : Grid :=
  let emptyCells := getEmptyCells g
  if h : emptyCells.length = 0 then g
  else
    let p := emptyCells.get ⟨idx % emptyCells.length, Nat.mod_lt _ (Nat.pos_of_ne_zero h)⟩
    let newTileValue : Nat := if drawFour then 4 else 2
    fun r c => if r = p.1 ∧ c = p.2 then some newTileValue else g r c

/-- The state held by the `useGameLogic` hook. -/
structure GameState where
  grid : Grid
  score : Nat
  gameOver : Bool
  won : Bool

/-- `initializeGame`: empty grid, INITIAL_TILES = 2 random tiles, score 0,
both flags false. The two spawns take their own draws. -/
def initializeGame (i1 : Nat) (f1 : Bool) (i2 : Nat) (f2 : Bool) : GameState :=
  { grid := addRandomTile (addRandomTile createEmptyGrid i1 f1) i2 f2
    score := 0
    gameOver := false
    won := false }

/-- The `move` callback of the hook: no-op when the game is over, no-op when
the transform reports `moved = false`, otherwise spawn a tile on the new grid,
add the score, and recompute the flags (`won` is or-ed with its old value). -/
def move (s : GameState) (d : Direction) (idx : Nat) (drawFour : Bool) : GameState :=
  if s.gameOver then s
  else
    let res := moveGrid s.grid d
    if res.moved then
      let gridWithNewTile := addRandomTile res.newGrid idx drawFour
      { grid := gridWithNewTile
        score := s.score + res.scoreGained
        gameOver := isGameOver gridWithNewTile
        won := s.won || hasWon gridWithNewTile }
    else s

/-- States reachable from `initializeGame` by `move` transitions; the hook's
`reset` replaces the state by a fresh `initializeGame`, which the `init`
constructor already covers. -/
inductive Reachable : GameState → Prop where
  | init (i1 : Nat) (f1 : Bool) (i2 : Nat) (f2 : Bool) :
      Reachable (initializeGame i1 f1 i2 f2)
  | step {s : GameState} (h : Reachable s) (d : Direction) (idx : Nat) (drawFour : Bool) :
      Reachable (move s d idx drawFour)

/-- Sum of the tile values on a line (empty cells count 0). -/
def lineSum (l : Line) : Nat := (l.filterMap id).sum

/-- Sum of the tile values on the board. -/
def gridSum (g : Grid) : Nat := ∑ r : Fin 4, ∑ c : Fin 4, (g r c).getD 0

/-- Number of non-empty cells on the board. -/
def countTiles (g : Grid) : Nat :=
  ∑ r : Fin 4, ∑ c : Fin 4, if g r c ≠ none then 1 else 0

/-! ### Basic lemmas about the merge pass -/

lemma mergeLine_pair (b : Nat) (rest : List Nat) :
    mergeLine (b :: b :: rest) = (b * 2 :: (mergeLine rest).1, (mergeLine rest).2 + b * 2) := by
  simp [mergeLine]

lemma mergeLine_nomatch {a b : Nat} (rest : List Nat) (hab : a ≠ b) :
    mergeLine (a :: b :: rest) = (a :: (mergeLine (b :: rest)).1, (mergeLine (b :: rest)).2) := by
  simp [mergeLine, hab]

lemma mergeLine_len_le (v : List Nat) : (mergeLine v).1.length ≤ v.length := by
  induction v using mergeLine.induct with
  | case1 => simp [mergeLine]
  | case2 a => simp [mergeLine]
  | case3 b rest ih => simp only [mergeLine_pair, List.length_cons]; omega
  | case4 a b rest hab ih =>
    simp only [mergeLine_nomatch rest hab, List.length_cons]
    simp only [List.length_cons] at ih
    omega

lemma mergeLine_ne_nil (v : List Nat) (h : v ≠ []) : (mergeLine v).1 ≠ [] := by
  match v with
  | [] => exact absurd rfl h
  | [a] => simp [mergeLine]
  | a :: b :: rest =>
    simp only [mergeLine]
    split <;> simp

lemma mergeLine_score_lt (v : List Nat) (h : (mergeLine v).2 ≠ 0) :
    (mergeLine v).1.length < v.length := by
  induction v using mergeLine.induct with
  | case1 => simp [mergeLine] at h
  | case2 a => simp [mergeLine] at h
  | case3 b rest ih =>
    have h2 := mergeLine_len_le rest
    simp only [mergeLine_pair, List.length_cons]
    omega
  | case4 a b rest hab ih =>
    simp only [mergeLine_nomatch rest hab] at h
    have h2 := ih h
    simp only [mergeLine_nomatch rest hab, List.length_cons]
    simp only [List.length_cons] at h2
    omega

lemma mergeLine_sum (v : List Nat) : (mergeLine v).1.sum = v.sum := by
  induction v using mergeLine.induct with
  | case1 => rfl
  | case2 a => rfl
  | case3 b rest ih =>
    simp only [mergeLine_pair, List.sum_cons, ih]
    omega
  | case4 a b rest hab ih =>
    simp only [mergeLine_nomatch rest hab, List.sum_cons, ih]

lemma mergeLine_chain (v : List Nat) (h : List.Chain' (fun a b => a ≠ b) v) :
    mergeLine v = (v, 0) := by
  induction v using mergeLine.induct with
  | case1 => rfl
  | case2 a => rfl
  | case3 b rest ih =>
    rw [List.chain'_cons] at h
    exact absurd rfl h.1
  | case4 a b rest hab ih =>
    rw [List.chain'_cons] at h
    simp [mergeLine_nomatch rest hab, ih h.2]

lemma mergeLine_not_chain (v : List Nat) (h : ¬ List.Chain' (fun a b => a ≠ b) v) :
    (mergeLine v).1.length < v.length := by
  induction v using mergeLine.induct with
  | case1 => exact absurd List.chain'_nil h
  | case2 a => exact absurd (List.chain'_singleton a) h
  | case3 b rest ih =>
    have h2 := mergeLine_len_le rest
    simp only [mergeLine_pair, List.length_cons]
    omega
  | case4 a b rest hab ih =>
    rw [List.chain'_cons, not_and_or] at h
    rcases h with h | h
    · exact absurd (not_not.mp h) hab
    · have h2 := ih h
      simp only [mergeLine_nomatch rest hab, List.length_cons]
      simp only [List.length_cons] at h2
      omega

lemma mergeLine_mem {P : Nat → Prop} (hP : ∀ u, P u → P (u * 2)) (v : List Nat)
    (hv : ∀ u ∈ v, P u) : ∀ x ∈ (mergeLine v).1, P x := by
  induction v using mergeLine.induct with
  | case1 => simp [mergeLine]
  | case2 a => simpa [mergeLine] using hv
  | case3 b rest ih =>
    simp only [mergeLine_pair]
    intro x hx
    rcases List.mem_cons.mp hx with rfl | hx
    · exact hP b (hv b (by simp))
    · exact ih (fun u hu => hv u (by simp [hu])) x hx
  | case4 a b rest hab ih =>
    simp only [mergeLine_nomatch rest hab]
    intro x hx
    rcases List.mem_cons.mp hx with rfl | hx
    · exact hv x (by simp)
    · exact ih (fun u hu => hv u (by simp [List.mem_cons.mp hu])) x hx

/-! ### Basic lemmas about processLine -/

lemma processLine_newLine (l : Line) :
    (processLine l).newLine = padLine (((mergeLine (l.filterMap id)).1).map some) := rfl

lemma processLine_score (l : Line) :
    (processLine l).scoreGained = (mergeLine (l.filterMap id)).2 := rfl

lemma processLine_changed_true {l : Line} :
    (processLine l).changed = true ↔ (processLine l).newLine ≠ l := by
  simp [processLine]

lemma processLine_changed_false {l : Line} :
    (processLine l).changed = false ↔ (processLine l).newLine = l := by
  rw [← Bool.not_eq_true, not_iff_comm, processLine_changed_true]

/-- Number of non-empty cells of a line. -/
def countSome (l : Line) : Nat := (l.filterMap id).length

lemma countSome_processLine (l : Line) :
    countSome (processLine l).newLine = (mergeLine (l.filterMap id)).1.length := by
  simp [countSome, processLine, padLine, List.filterMap_append, List.filterMap_map,
    Function.comp, List.filterMap_replicate]

lemma processLine_score_of_changed_false {l : Line} (h : (processLine l).changed = false) :
    (processLine l).scoreGained = 0 := by
  by_contra hs
  have h1 : (mergeLine (l.filterMap id)).2 ≠ 0 := by rwa [processLine_score] at hs
  have h2 := mergeLine_score_lt _ h1
  have h3 : (processLine l).newLine = l := processLine_changed_false.mp h
  have h4 : countSome (processLine l).newLine = countSome l := by rw [h3]
  rw [countSome_processLine] at h4
  simp only [countSome] at h4
  omega

lemma lineSum_processLine (l : Line) : lineSum (processLine l).newLine = lineSum l := by
  simp [lineSum, processLine, padLine, List.filterMap_append, List.filterMap_map,
    Function.comp, List.filterMap_replicate]
  exact mergeLine_sum _

lemma lineSum_reverse (l : Line) : lineSum l.reverse = lineSum l := by
  simp [lineSum, List.sum_reverse]

lemma processLine_length {l : Line} (h : l.length ≤ 4) :
    (processLine l).newLine.length = 4 := by
  have h1 := List.length_filterMap_le id l
  have h2 := mergeLine_len_le (l.filterMap id)
  simp only [processLine, padLine, List.length_append, List.length_map, List.length_replicate]
  omega

lemma list4_getD (l : Line) (h : l.length = 4) :
    [l.getD 0 none, l.getD 1 none, l.getD 2 none, l.getD 3 none] = l := by
  match l with
  | [a, b, c, d] => rfl
  | [] => simp at h
  | [_] => simp at h
  | [_, _] => simp at h
  | [_, _, _] => simp at h
  | _ :: _ :: _ :: _ :: _ :: _ =>
    simp only [List.length_cons] at h
    omega

lemma getD_mem {l : Line} {i : Nat} {v : Nat} (h : l.getD i none = some v) : some v ∈ l := by
  rw [List.getD_eq_getElem?_getD] at h
  cases hi : l[i]? with
  | none => rw [hi] at h; simp at h
  | some x =>
    rw [hi] at h
    simp only [Option.getD_some] at h
    subst h
    exact List.getElem?_mem hi

lemma list_any_map {α β : Type} (f : α → β) (l : List α) (p : β → Bool) :
    (l.map f).any p = l.any fun a => p (f a) := by
  induction l with
  | nil => rfl
  | cons a t ih => simp [List.any_cons, ih]

lemma mem_getEmptyCells {g : Grid} {p : Fin 4 × Fin 4} :
    p ∈ getEmptyCells g ↔ g p.1 p.2 = none := by
  cases p with
  | mk r c =>
    simp only [getEmptyCells, List.mem_flatMap, List.mem_filterMap, List.mem_finRange,
      true_and]
    constructor
    · rintro ⟨a, b, hb⟩
      split at hb
      · rcases Option.some_inj.mp hb with h
        cases h
        assumption
      · exact absurd hb (by simp)
    · intro h
      exact ⟨r, c, by simp [h]⟩

/-! ### Concrete boards used to instantiate theorems with hypotheses -/

/-- A full board with no two adjacent equal cells (checkerboard of 2s and 4s). -/
def gTerm : Grid := fun r c => if (r.val + c.val) % 2 = 0 then some 2 else some 4

/-- A state whose game is already over (board content irrelevant). -/
def sOver : GameState :=
  { grid := createEmptyGrid, score := 0, gameOver := true, won := false }

/-- A live state whose won flag is set. -/
def sWon : GameState :=
  { grid := createEmptyGrid, score := 0, gameOver := false, won := true }

/-! ### Claims -/

/-- C2: `processLine` first removes empty cells preserving order — its result
and score are those of the compacted line — and then performs a single
left-to-right merge pass with no re-merging of a just-created value; in
particular `[2,2,2,2]` becomes `[4,4,empty,empty]` with score 8 (not `[8,...]`),
and in `[2,2,4,empty]` the just-created 4 is not merged with the following 4. -/
theorem processLine_compact_then_single_pass :
    (∀ l : Line,
        (processLine l).newLine = (processLine ((l.filterMap id).map some)).newLine ∧
        (processLine l).scoreGained = (processLine ((l.filterMap id).map some)).scoreGained) ∧
    (processLine [some 2, some 2, some 2, some 2]).newLine = [some 4, some 4, none, none] ∧
    (processLine [some 2, some 2, some 2, some 2]).scoreGained = 8 ∧
    (processLine [some 2, some 2, some 4, none]).newLine = [some 4, some 4, none, none] := by
  refine ⟨fun l => ?_, by decide, by decide, by decide⟩
  have h : ((l.filterMap id).map some).filterMap id = l.filterMap id := by
    rw [List.filterMap_map]
    simp [Function.comp]
  exact ⟨by simp [processLine, h], by simp [processLine, h]⟩

/-- C5: the hook's `move` is a strict no-op when the game is already over,
and also when the grid transform reports `moved = false`: the state is
returned unchanged, no tile is spawned and no score is added. -/
theorem move_noop_of_guard (s : GameState) (d : Direction) (idx : Nat) (drawFour : Bool) :
    (s.gameOver = true → move s d idx drawFour = s) ∧
    ((moveGrid s.grid d).moved = false → move s d idx drawFour = s) := by
  constructor
  · intro h
    simp [move, h]
  · intro h
    simp [move, h]

/-- Witness for C5 at a concrete finished state. -/
theorem move_noop_of_guard_witness : move sOver .left 0 false = sOver :=
  (move_noop_of_guard sOver .left 0 false).1 rfl

/-- C6: the won flag is monotonic across `move` transitions: once set, any
state produced by `move` still has it set. -/
theorem move_won_monotone (s : GameState) (d : Direction) (idx : Nat) (drawFour : Bool)
    (h : s.won = true) : (move s d idx drawFour).won = true := by
  simp only [move]
  split
  · exact h
  · split
    · simp [h]
    · exact h

/-- Witness for C6 at a concrete won state. -/
theorem move_won_monotone_witness : (move sWon .left 0 false).won = true :=
  move_won_monotone sWon .left 0 false rfl

/-- C9: on a full grid (zero empty cells) `addRandomTile` returns the grid
unchanged, for every outcome of the random draws; this case is a defined
no-op, not an error. -/
theorem addRandomTile_full_noop (g : Grid) (idx : Nat) (drawFour : Bool)
    (h : ∀ r c, g r c ≠ none) : addRandomTile g idx drawFour = g := by
  have he : getEmptyCells g = [] := by
    rw [List.eq_nil_iff_forall_not_mem]
    intro p hp
    exact h p.1 p.2 (mem_getEmptyCells.mp hp)
  simp [addRandomTile, he]

/-- Witness for C9 at a concrete full board. -/
theorem addRandomTile_full_noop_witness : addRandomTile gTerm 3 true = gTerm :=
  addRandomTile_full_noop gTerm 3 true (by decide)

lemma moveGrid_moved_and_score_aux (g : Grid) (d : Direction) :
    (moveGrid g d).moved = (linesOf g d).any (fun l => (processLine l).changed) ∧
    (moveGrid g d).scoreGained
      = ((linesOf g d).map fun l => (processLine l).scoreGained).sum := by
  have key : ∀ f : Fin 4 → Line,
      (fun i => if (processLine (f i)).changed then (processLine (f i)).scoreGained else 0)
        = fun i => (processLine (f i)).scoreGained := by
    intro f
    funext i
    by_cases h : (processLine (f i)).changed = true
    · simp [h]
    · rw [Bool.not_eq_true] at h
      simp [h, processLine_score_of_changed_false h]
  cases d <;>
    exact ⟨by simp [moveGrid, linesOf, list_any_map],
      by simp only [moveGrid, linesOf, List.map_map, Function.comp_def, key]⟩

/-- C1: for every grid and direction, `moved` is the logical OR of the
`changed` flags of the four processed lines, and `scoreGained` is the sum of
the four per-line scores over all lines — even though the source adds a
line's score only when that line's `changed` flag is true (a line with
`changed = false` always has score 0). -/
theorem moveGrid_moved_and_score (g : Grid) (d : Direction) :
    (moveGrid g d).moved = (linesOf g d).any (fun l => (processLine l).changed) ∧
    (moveGrid g d).scoreGained
      = ((linesOf g d).map fun l => (processLine l).scoreGained).sum :=
  moveGrid_moved_and_score_aux g d

lemma isGameOver_eq_true_iff (g : Grid) :
    isGameOver g = true ↔
      (∀ r c, g r c ≠ none) ∧
      (∀ (r : Fin 4) (c : Fin 3), ¬ ∃ v : Nat, g r c.castSucc = some v ∧ g r c.succ = some v) ∧
      (∀ (r : Fin 3) (c : Fin 4), ¬ ∃ v : Nat, g r.castSucc c = some v ∧ g r.succ c = some v) := by
  unfold isGameOver
  split_ifs with h1 h2 h3
  · simp only [Bool.false_eq_true, false_iff]
    rintro ⟨hfull, -, -⟩
    obtain ⟨r, c, hrc⟩ := h1
    exact hfull r c hrc
  · simp only [Bool.false_eq_true, false_iff]
    rintro ⟨hfull, hh, -⟩
    obtain ⟨r, c, hrc⟩ := h2
    obtain ⟨v, hv⟩ := Option.ne_none_iff_exists'.mp (hfull r c.castSucc)
    exact hh r c ⟨v, hv, by rw [← hrc]; exact hv⟩
  · simp only [Bool.false_eq_true, false_iff]
    rintro ⟨hfull, -, hv2⟩
    obtain ⟨r, c, hrc⟩ := h3
    obtain ⟨v, hv⟩ := Option.ne_none_iff_exists'.mp (hfull r.castSucc c)
    exact hv2 r c ⟨v, hv, by rw [← hrc]; exact hv⟩
  · simp only [true_iff]
    push_neg at h1
    refine ⟨h1, ?_, ?_⟩
    · rintro r c ⟨v, hv1, hv2⟩
      exact h2 ⟨r, c, by rw [hv1, hv2]⟩
    · rintro r c ⟨v, hv1, hv2⟩
      exact h3 ⟨r, c, by rw [hv1, hv2]⟩

/-- C4: `isGameOver` is true exactly when the grid has zero empty cells and
no two horizontally or vertically adjacent cells hold equal non-empty values;
in particular it is false whenever any empty cell exists. -/
theorem isGameOver_iff_full_no_adjacent (g : Grid) :
    isGameOver g = true ↔
      (∀ r c, g r c ≠ none) ∧
      (∀ (r : Fin 4) (c : Fin 3), ¬ ∃ v : Nat, g r c.castSucc = some v ∧ g r c.succ = some v) ∧
      (∀ (r : Fin 3) (c : Fin 4), ¬ ∃ v : Nat, g r.castSucc c = some v ∧ g r.succ c = some v) :=
  isGameOver_eq_true_iff g

lemma lineSum_cons (x : Cell) (t : Line) : lineSum (x :: t) = x.getD 0 + lineSum t := by
  cases x <;> simp [lineSum]

lemma lineSum_nil : lineSum ([] : Line) = 0 := rfl

lemma sum_getD_eq_lineSum (l : Line) (h : l.length = 4) :
    (∑ c : Fin 4, (l.getD c.val none).getD 0) = lineSum l := by
  conv_rhs => rw [← list4_getD l h]
  rw [Fin.sum_univ_four]
  have e0 : ((0 : Fin 4) : Nat) = 0 := rfl
  have e1 : ((1 : Fin 4) : Nat) = 1 := rfl
  have e2 : ((2 : Fin 4) : Nat) = 2 := rfl
  have e3 : ((3 : Fin 4) : Nat) = 3 := rfl
  rw [e0, e1, e2, e3]
  simp only [lineSum_cons, lineSum_nil]
  omega

lemma rowSum_eq (g : Grid) (r : Fin 4) :
    (∑ c : Fin 4, (g r c).getD 0) = lineSum (rowOf g r) := by
  rw [Fin.sum_univ_four]
  simp only [rowOf, lineSum_cons, lineSum_nil]
  omega

lemma colSum_eq (g : Grid) (c : Fin 4) :
    (∑ r : Fin 4, (g r c).getD 0) = lineSum (colOf g c) := by
  rw [Fin.sum_univ_four]
  simp only [colOf, lineSum_cons, lineSum_nil]
  omega

lemma gridSum_update_rows (g : Grid) (f : Fin 4 → Line) (b : Fin 4 → Bool)
    (hlen : ∀ i, (f i).length = 4)
    (hsum : ∀ i, lineSum (f i) = lineSum (rowOf g i)) :
    gridSum (fun r c => if b r then (f r).getD c.val none else g r c) = gridSum g := by
  unfold gridSum
  apply Finset.sum_congr rfl
  intro r _
  by_cases h : b r = true
  · simp only [h, if_true]
    rw [sum_getD_eq_lineSum _ (hlen r), hsum r, rowSum_eq]
  · rw [Bool.not_eq_true] at h
    simp only [h, Bool.false_eq_true, if_false]

lemma gridSum_update_cols (g : Grid) (f : Fin 4 → Line) (b : Fin 4 → Bool)
    (hlen : ∀ i, (f i).length = 4)
    (hsum : ∀ i, lineSum (f i) = lineSum (colOf g i)) :
    gridSum (fun r c => if b c then (f c).getD r.val none else g r c) = gridSum g := by
  have step : (∑ c : Fin 4, ∑ r : Fin 4,
      ((if b c then (f c).getD r.val none else g r c : Cell)).getD 0)
      = ∑ c : Fin 4, ∑ r : Fin 4, (g r c).getD 0 := by
    apply Finset.sum_congr rfl
    intro c _
    by_cases h : b c = true
    · simp only [h, if_true]
      rw [sum_getD_eq_lineSum _ (hlen c), hsum c, colSum_eq]
    · rw [Bool.not_eq_true] at h
      simp only [h, Bool.false_eq_true, if_false]
  calc gridSum (fun r c => if b c then (f c).getD r.val none else g r c)
      = ∑ c : Fin 4, ∑ r : Fin 4,
          ((if b c then (f c).getD r.val none else g r c : Cell)).getD 0 := by
        unfold gridSum
        exact Finset.sum_comm
    _ = ∑ c : Fin 4, ∑ r : Fin 4, (g r c).getD 0 := step
    _ = gridSum g := by
        unfold gridSum
        exact Finset.sum_comm

/-- C10: `processLine` conserves the total tile value of a line (a merge
replaces two tiles of value v by one of value 2v), and consequently
`moveGrid` never changes the total tile value of the board. -/
theorem totalValue_conserved :
    (∀ l : Line, lineSum (processLine l).newLine = lineSum l) ∧
    ∀ (g : Grid) (d : Direction), gridSum (moveGrid g d).newGrid = gridSum g := by
  refine ⟨lineSum_processLine, fun g d => ?_⟩
  cases d with
  | left =>
    exact gridSum_update_rows g (fun r => (processLine (rowOf g r)).newLine)
      (fun r => (processLine (rowOf g r)).changed)
      (fun r => processLine_length (by simp [rowOf]))
      (fun r => lineSum_processLine _)
  | right =>
    refine gridSum_update_rows g (fun r => (processLine (rowOf g r).reverse).newLine.reverse)
      (fun r => (processLine (rowOf g r).reverse).changed)
      (fun r => by
        rw [List.length_reverse]
        exact processLine_length (by simp [rowOf]))
      (fun r => by
        rw [lineSum_reverse, lineSum_processLine, lineSum_reverse])
  | up =>
    exact gridSum_update_cols g (fun c => (processLine (colOf g c)).newLine)
      (fun c => (processLine (colOf g c)).changed)
      (fun c => processLine_length (by simp [colOf]))
      (fun c => lineSum_processLine _)
  | down =>
    refine gridSum_update_cols g (fun c => (processLine (colOf g c).reverse).newLine.reverse)
      (fun c => (processLine (colOf g c).reverse).changed)
      (fun c => by
        rw [List.length_reverse]
        exact processLine_length (by simp [colOf]))
      (fun c => by
        rw [lineSum_reverse, lineSum_processLine, lineSum_reverse])

lemma addRandomTile_eq (g : Grid) (idx : Nat) (drawFour : Bool)
    (h : getEmptyCells g ≠ []) :
    ∃ p ∈ getEmptyCells g, addRandomTile g idx drawFour
      = fun r c => if r = p.1 ∧ c = p.2 then some (if drawFour then 4 else 2) else g r c := by
  have hlen : (getEmptyCells g).length ≠ 0 := by
    simpa [List.length_eq_zero] using h
  refine ⟨(getEmptyCells g).get
    ⟨idx % (getEmptyCells g).length, Nat.mod_lt _ (Nat.pos_of_ne_zero hlen)⟩,
    List.get_mem _ _ _, ?_⟩
  simp only [addRandomTile, dif_neg hlen]

/-- C8: on a grid with at least one empty cell, `addRandomTile` fills exactly
one previously-empty cell with 2 or 4, leaves every other cell unchanged,
and increases the number of non-empty cells by exactly one — for every outcome
of the position and value draws. -/
theorem addRandomTile_spawns_one (g : Grid) (idx : Nat) (drawFour : Bool)
    (h : ∃ r c, g r c = none) :
    ∃ r c, g r c = none ∧
      (addRandomTile g idx drawFour r c = some 2 ∨ addRandomTile g idx drawFour r c = some 4) ∧
      (∀ r₂ c₂, ¬(r₂ = r ∧ c₂ = c) → addRandomTile g idx drawFour r₂ c₂ = g r₂ c₂) ∧
      countTiles (addRandomTile g idx drawFour) = countTiles g + 1 := by
  obtain ⟨r0, c0, h0⟩ := h
  have hne : getEmptyCells g ≠ [] := by
    intro he
    have hm : ((r0, c0) : Fin 4 × Fin 4) ∈ getEmptyCells g := mem_getEmptyCells.mpr h0
    rw [he] at hm
    simp at hm
  obtain ⟨p, hp, heq⟩ := addRandomTile_eq g idx drawFour hne
  have hpe : g p.1 p.2 = none := mem_getEmptyCells.mp hp
  refine ⟨p.1, p.2, hpe, ?_, ?_, ?_⟩
  · rw [heq]
    by_cases hf : drawFour = true
    · right
      simp [hf]
    · left
      rw [Bool.not_eq_true] at hf
      simp [hf]
  · intro r₂ c₂ hne₂
    rw [heq]
    simp only [if_neg hne₂]
  · rw [heq]
    unfold countTiles
    have hind : ∀ r c : Fin 4, ¬(r = p.1 ∧ c = p.2) →
        ((if (if r = p.1 ∧ c = p.2 then some (if drawFour then 4 else 2) else g r c) ≠ none
          then 1 else 0) : Nat)
        = if g r c ≠ none then 1 else 0 := by
      intro r c hno
      rw [if_neg hno]
    have hip : ((if (if p.1 = p.1 ∧ p.2 = p.2 then some (if drawFour then 4 else 2)
        else g p.1 p.2) ≠ none then 1 else 0) : Nat) = 1 := by
      rw [if_pos (show p.1 = p.1 ∧ p.2 = p.2 from ⟨rfl, rfl⟩)]
      simp
    rw [← Finset.add_sum_erase _ _ (Finset.mem_univ p.1)]
    conv_rhs => rw [← Finset.add_sum_erase _ _ (Finset.mem_univ p.1)]
    rw [← Finset.add_sum_erase _ _ (Finset.mem_univ p.2)]
    conv_rhs => rw [← Finset.add_sum_erase _ _ (Finset.mem_univ p.2)]
    rw [hip]
    rw [Finset.sum_congr rfl
      (fun c hc => hind p.1 c (fun hx => (Finset.mem_erase.mp hc).1 hx.2))]
    rw [Finset.sum_congr rfl
      (fun r hr => Finset.sum_congr rfl
        (fun c _ => hind r c (fun hx => (Finset.mem_erase.mp hr).1 hx.1)))]
    rw [hpe]
    simp
    omega

/-- Witness for C8: spawning on the empty board. -/
theorem addRandomTile_spawns_one_witness :
    ∃ r c : Fin 4, createEmptyGrid r c = none ∧
      (addRandomTile createEmptyGrid 0 false r c = some 2 ∨
        addRandomTile createEmptyGrid 0 false r c = some 4) ∧
      (∀ r₂ c₂, ¬(r₂ = r ∧ c₂ = c) →
        addRandomTile createEmptyGrid 0 false r₂ c₂ = createEmptyGrid r₂ c₂) ∧
      countTiles (addRandomTile createEmptyGrid 0 false) = countTiles createEmptyGrid + 1 :=
  addRandomTile_spawns_one createEmptyGrid 0 false ⟨0, 0, rfl⟩

/-- A tile value allowed on the board: a power of two that is at least 2. -/
def isPowerTile (v : Nat) : Prop := ∃ k : Nat, v = 2 ^ (k + 1)

lemma isPowerTile_double {v : Nat} (h : isPowerTile v) : isPowerTile (v * 2) := by
  obtain ⟨k, rfl⟩ := h
  exact ⟨k + 1, by ring⟩

lemma two_isPowerTile : isPowerTile 2 := ⟨0, rfl⟩

lemma four_isPowerTile : isPowerTile 4 := ⟨1, rfl⟩

lemma newLine_mem_closed {P : Nat → Prop} (hP : ∀ u, P u → P (u * 2)) (l : Line)
    (hl : ∀ v : Nat, some v ∈ l → P v) :
    ∀ v : Nat, some v ∈ (processLine l).newLine → P v := by
  intro v hv
  rw [processLine_newLine] at hv
  unfold padLine at hv
  rcases List.mem_append.mp hv with hv | hv
  · obtain ⟨u, hu, hequ⟩ := List.mem_map.mp hv
    have huv : u = v := Option.some_inj.mp hequ
    subst huv
    refine mergeLine_mem hP _ ?_ u hu
    intro u hu2
    obtain ⟨a, ha, ha2⟩ := List.mem_filterMap.mp hu2
    have ha3 : a = some u := ha2
    exact hl u (ha3 ▸ ha)
  · have := List.eq_of_mem_replicate hv
    simp at this

lemma moveGrid_cells_closed {P : Nat → Prop} (hP : ∀ u, P u → P (u * 2)) (g : Grid)
    (hg : ∀ r c v, g r c = some v → P v) (d : Direction) :
    ∀ r c v, (moveGrid g d).newGrid r c = some v → P v := by
  have hrow : ∀ (r : Fin 4) (v : Nat), some v ∈ rowOf g r → P v := by
    intro r v hv
    simp only [rowOf, List.mem_cons, List.not_mem_nil, or_false] at hv
    rcases hv with h | h | h | h <;> exact hg _ _ _ h.symm
  have hcol : ∀ (c : Fin 4) (v : Nat), some v ∈ colOf g c → P v := by
    intro c v hv
    simp only [colOf, List.mem_cons, List.not_mem_nil, or_false] at hv
    rcases hv with h | h | h | h <;> exact hg _ _ _ h.symm
  cases d with
  | left =>
    intro r c v hv
    dsimp only [moveGrid] at hv
    split at hv
    · exact newLine_mem_closed hP _ (hrow r) v (getD_mem hv)
    · exact hg _ _ _ hv
  | right =>
    intro r c v hv
    dsimp only [moveGrid] at hv
    split at hv
    · have hm := getD_mem hv
      rw [List.mem_reverse] at hm
      exact newLine_mem_closed hP _
        (fun u hu => hrow r u (List.mem_reverse.mp hu)) v hm
    · exact hg _ _ _ hv
  | up =>
    intro r c v hv
    dsimp only [moveGrid] at hv
    split at hv
    · exact newLine_mem_closed hP _ (hcol c) v (getD_mem hv)
    · exact hg _ _ _ hv
  | down =>
    intro r c v hv
    dsimp only [moveGrid] at hv
    split at hv
    · have hm := getD_mem hv
      rw [List.mem_reverse] at hm
      exact newLine_mem_closed hP _
        (fun u hu => hcol c u (List.mem_reverse.mp hu)) v hm
    · exact hg _ _ _ hv

lemma addRandomTile_cells_closed {P : Nat → Prop} (h2 : P 2) (h4 : P 4) (g : Grid)
    (hg : ∀ r c v, g r c = some v → P v) (idx : Nat) (drawFour : Bool) :
    ∀ r c v, addRandomTile g idx drawFour r c = some v → P v := by
  by_cases h : getEmptyCells g = []
  · have hlen : (getEmptyCells g).length = 0 := by simp [h]
    have heq : addRandomTile g idx drawFour = g := by
      unfold addRandomTile
      rw [dif_pos hlen]
    rw [heq]
    exact hg
  · obtain ⟨p, hp, heq⟩ := addRandomTile_eq g idx drawFour h
    rw [heq]
    intro r c v hv
    dsimp only at hv
    by_cases hc : r = p.1 ∧ c = p.2
    · rw [if_pos hc] at hv
      obtain rfl : (if drawFour then 4 else 2) = v := Option.some_inj.mp hv
      by_cases hf : drawFour = true
      · rw [if_pos hf]
        exact h4
      · rw [Bool.not_eq_true] at hf
        rw [hf]
        exact h2
    · rw [if_neg hc] at hv
      exact hg _ _ _ hv

lemma reachable_cells (s : GameState) (hs : Reachable s) :
    ∀ r c v, s.grid r c = some v → isPowerTile v := by
  induction hs with
  | init i1 f1 i2 f2 =>
    refine addRandomTile_cells_closed two_isPowerTile four_isPowerTile _ ?_ i2 f2
    refine addRandomTile_cells_closed two_isPowerTile four_isPowerTile _ ?_ i1 f1
    intro r c v hv
    simp [createEmptyGrid] at hv
  | step hs d idx drawFour ih =>
    dsimp only [move]
    split
    · exact ih
    · split
      · dsimp only
        exact addRandomTile_cells_closed two_isPowerTile four_isPowerTile _
          (moveGrid_cells_closed (fun u h => isPowerTile_double h) _ ih d) idx drawFour
      · exact ih

/-- C7: in every state reachable from the initializer by move and reset
transitions, under any outcomes of the random draws, the grid is 4x4 and
every non-empty cell holds a power of two that is at least 2. -/
theorem reachable_grid_wellformed (s : GameState) (hs : Reachable s) :
    (∀ r, (rowOf s.grid r).length = 4) ∧
    (∀ r c v, s.grid r c = some v → ∃ k : Nat, v = 2 ^ (k + 1)) :=
  ⟨fun _ => rfl, reachable_cells s hs⟩

/-- Witness for C7: the first spawned tile of a concrete fresh game is 2 = 2^1. -/
theorem reachable_grid_wellformed_witness : ∃ k : Nat, (2 : Nat) = 2 ^ (k + 1) :=
  (reachable_grid_wellformed (initializeGame 0 false 0 false)
    (Reachable.init 0 false 0 false)).2 0 0 2 (by decide)

lemma map_some_filterMap {l : Line} (h : ∀ x ∈ l, x ≠ none) :
    (l.filterMap id).map some = l := by
  induction l with
  | nil => rfl
  | cons a t ih =>
    cases a with
    | none => exact absurd rfl (h none (by simp))
    | some v =>
      have ih2 := ih (fun x hx => h x (by simp [hx]))
      simp only [List.filterMap_cons, id, List.map_cons]
      rw [ih2]

lemma chain_ne_map_some (vs : List Nat) :
    List.Chain' (fun a b : Cell => a ≠ b) (vs.map some) ↔
    List.Chain' (fun a b : Nat => a ≠ b) vs := by
  rw [List.chain'_map]
  constructor <;> exact fun h => h.imp (fun a b hab => by simpa using hab)

lemma processLine_unchanged_of_full_chain {l : Line} (hlen : l.length = 4)
    (hfull : ∀ x ∈ l, x ≠ none)
    (hchain : List.Chain' (fun a b : Cell => a ≠ b) l) :
    (processLine l).changed = false := by
  have hmap := map_some_filterMap hfull
  have hchain2 : List.Chain' (fun a b : Nat => a ≠ b) (l.filterMap id) := by
    rw [← chain_ne_map_some, hmap]
    exact hchain
  have hm : mergeLine (l.filterMap id) = (l.filterMap id, 0) := mergeLine_chain _ hchain2
  rw [processLine_changed_false, processLine_newLine, hm]
  dsimp only
  rw [hmap]
  unfold padLine
  rw [hlen]
  simp

lemma processLine_changed_of_mixed {l : Line}
    (ht : ∃ v : Nat, some v ∈ l) (he : none ∈ l)
    (hc : (processLine l).changed = false) :
    (processLine l.reverse).changed = true := by
  have hl : l = ((mergeLine (l.filterMap id)).1.map some)
      ++ List.replicate (4 - ((mergeLine (l.filterMap id)).1.map some).length) none := by
    have h := processLine_changed_false.mp hc
    rw [processLine_newLine] at h
    unfold padLine at h
    exact h.symm
  obtain ⟨v, hv⟩ := ht
  have hfne : l.filterMap id ≠ [] := by
    intro h0
    have hvm : v ∈ l.filterMap id := List.mem_filterMap.mpr ⟨some v, hv, rfl⟩
    rw [h0] at hvm
    simp at hvm
  have hmne : (mergeLine (l.filterMap id)).1 ≠ [] := mergeLine_ne_nil _ hfne
  have hk : 4 - ((mergeLine (l.filterMap id)).1.map some).length ≠ 0 := by
    intro h0
    rw [hl, h0] at he
    simp only [List.replicate_zero, List.append_nil] at he
    obtain ⟨u, -, hu2⟩ := List.mem_map.mp he
    exact Option.noConfusion hu2
  set m := (mergeLine (l.filterMap id)).1 with hmdef
  have hfm : l.filterMap id = m := by
    conv_lhs => rw [hl]
    rw [List.filterMap_append, List.filterMap_map]
    simp
  obtain ⟨k, hk2⟩ := Nat.exists_eq_succ_of_ne_zero hk
  have hlrev : l.reverse = none :: (List.replicate k none ++ (m.map some).reverse) := by
    conv_lhs => rw [hl]
    rw [List.reverse_append, List.reverse_replicate, hk2, List.replicate_succ,
      List.cons_append]
  rw [processLine_changed_true, processLine_newLine, List.filterMap_reverse, hfm]
  obtain ⟨x, xs, hxs⟩ := List.exists_cons_of_ne_nil
    (mergeLine_ne_nil m.reverse (by simpa using hmne))
  rw [hxs]
  unfold padLine
  rw [List.map_cons, List.cons_append]
  intro heq
  rw [hlrev] at heq
  simp at heq

lemma processLine_changed_of_full_adjacent {l : Line}
    (hfull : ∀ x ∈ l, x ≠ none)
    (hnc : ¬ List.Chain' (fun a b : Cell => a ≠ b) l) :
    (processLine l).changed = true := by
  have hmap := map_some_filterMap hfull
  have hnc2 : ¬ List.Chain' (fun a b : Nat => a ≠ b) (l.filterMap id) := by
    intro hch
    refine hnc ?_
    rw [← hmap]
    exact (chain_ne_map_some _).mpr hch
  have hlt := mergeLine_not_chain _ hnc2
  rw [processLine_changed_true]
  intro heq
  have h4 : countSome (processLine l).newLine = countSome l := by rw [heq]
  rw [countSome_processLine] at h4
  simp only [countSome] at h4
  omega

lemma mem_rowOf (g : Grid) (r c : Fin 4) : g r c ∈ rowOf g r := by
  fin_cases c <;> simp [rowOf]

lemma mem_colOf (g : Grid) (r c : Fin 4) : g r c ∈ colOf g c := by
  fin_cases r <;> simp [colOf]

lemma row_chain_of_noH {g : Grid} (hfull : ∀ r c, g r c ≠ none)
    (hh : ∀ (r : Fin 4) (c : Fin 3),
      ¬ ∃ v : Nat, g r c.castSucc = some v ∧ g r c.succ = some v)
    (r : Fin 4) : List.Chain' (fun a b : Cell => a ≠ b) (rowOf g r) := by
  have key : ∀ c : Fin 3, g r c.castSucc ≠ g r c.succ := by
    intro c he
    obtain ⟨v, hv⟩ := Option.ne_none_iff_exists'.mp (hfull r c.castSucc)
    refine hh r c ⟨v, hv, ?_⟩
    rw [← he]
    exact hv
  simp only [rowOf, List.chain'_cons, List.chain'_singleton, and_true]
  exact ⟨key 0, key 1, key 2⟩

lemma col_chain_of_noV {g : Grid} (hfull : ∀ r c, g r c ≠ none)
    (hv : ∀ (r : Fin 3) (c : Fin 4),
      ¬ ∃ v : Nat, g r.castSucc c = some v ∧ g r.succ c = some v)
    (c : Fin 4) : List.Chain' (fun a b : Cell => a ≠ b) (colOf g c) := by
  have key : ∀ r : Fin 3, g r.castSucc c ≠ g r.succ c := by
    intro r he
    obtain ⟨v, hvv⟩ := Option.ne_none_iff_exists'.mp (hfull r.castSucc c)
    refine hv r c ⟨v, hvv, ?_⟩
    rw [← he]
    exact hvv
  simp only [colOf, List.chain'_cons, List.chain'_singleton, and_true]
  exact ⟨key 0, key 1, key 2⟩

lemma noH_of_chains {g : Grid}
    (h : ∀ r, List.Chain' (fun a b : Cell => a ≠ b) (rowOf g r)) :
    ∀ (r : Fin 4) (c : Fin 3),
      ¬ ∃ v : Nat, g r c.castSucc = some v ∧ g r c.succ = some v := by
  intro r c
  have hc := h r
  simp only [rowOf, List.chain'_cons, List.chain'_singleton, and_true] at hc
  obtain ⟨h01, h12, h23⟩ := hc
  rintro ⟨v, hv1, hv2⟩
  fin_cases c
  · exact h01 (hv1.trans hv2.symm)
  · exact h12 (hv1.trans hv2.symm)
  · exact h23 (hv1.trans hv2.symm)

lemma noV_of_chains {g : Grid}
    (h : ∀ c, List.Chain' (fun a b : Cell => a ≠ b) (colOf g c)) :
    ∀ (r : Fin 3) (c : Fin 4),
      ¬ ∃ v : Nat, g r.castSucc c = some v ∧ g r.succ c = some v := by
  intro r c
  have hc := h c
  simp only [colOf, List.chain'_cons, List.chain'_singleton, and_true] at hc
  obtain ⟨h01, h12, h23⟩ := hc
  rintro ⟨v, hv1, hv2⟩
  fin_cases r
  · exact h01 (hv1.trans hv2.symm)
  · exact h12 (hv1.trans hv2.symm)
  · exact h23 (hv1.trans hv2.symm)

lemma rowOf_full {g : Grid} (hfull : ∀ r c, g r c ≠ none) (r : Fin 4) :
    ∀ x ∈ rowOf g r, x ≠ none := by
  intro x hx
  simp only [rowOf, List.mem_cons, List.not_mem_nil, or_false] at hx
  rcases hx with h | h | h | h <;> exact h ▸ hfull r _

lemma colOf_full {g : Grid} (hfull : ∀ r c, g r c ≠ none) (c : Fin 4) :
    ∀ x ∈ colOf g c, x ≠ none := by
  intro x hx
  simp only [colOf, List.mem_cons, List.not_mem_nil, or_false] at hx
  rcases hx with h | h | h | h <;> exact h ▸ hfull _ c

lemma rowOf_mem_left (g : Grid) (r : Fin 4) : rowOf g r ∈ linesOf g .left := by
  show rowOf g r ∈ (List.finRange 4).map fun r => rowOf g r
  exact List.mem_map.mpr ⟨r, List.mem_finRange r, rfl⟩

lemma rowOf_mem_right (g : Grid) (r : Fin 4) :
    (rowOf g r).reverse ∈ linesOf g .right := by
  show (rowOf g r).reverse ∈ (List.finRange 4).map fun r => (rowOf g r).reverse
  exact List.mem_map.mpr ⟨r, List.mem_finRange r, rfl⟩

lemma colOf_mem_up (g : Grid) (c : Fin 4) : colOf g c ∈ linesOf g .up := by
  show colOf g c ∈ (List.finRange 4).map fun c => colOf g c
  exact List.mem_map.mpr ⟨c, List.mem_finRange c, rfl⟩

lemma colOf_mem_down (g : Grid) (c : Fin 4) :
    (colOf g c).reverse ∈ linesOf g .down := by
  show (colOf g c).reverse ∈ (List.finRange 4).map fun c => (colOf g c).reverse
  exact List.mem_map.mpr ⟨c, List.mem_finRange c, rfl⟩

/-- C3 counterexample: on the all-empty grid no direction reports a move
(every line processes to itself), yet `isGameOver` is false because empty
cells exist — so the unrestricted equivalence fails. -/
theorem isGameOver_iff_no_move_counterexample :
    ¬ (isGameOver createEmptyGrid = true ↔
        ∀ d, (moveGrid createEmptyGrid d).moved = false) := by
  intro h
  have h1 : isGameOver createEmptyGrid = true := by
    refine h.mpr ?_
    intro d
    cases d <;> decide
  have h2 : isGameOver createEmptyGrid = false := by decide
  rw [h1] at h2
  cases h2

/-- C3 (amended): for every grid holding at least one tile, `isGameOver` is
true exactly when no direction's `moveGrid` reports `moved = true`. -/
theorem isGameOver_iff_no_move_of_nonempty (g : Grid) (hne : ∃ r c, g r c ≠ none) :
    isGameOver g = true ↔ ∀ d, (moveGrid g d).moved = false := by
  constructor
  · intro hio d
    rw [isGameOver_eq_true_iff] at hio
    obtain ⟨hfull, hH, hV⟩ := hio
    rw [(moveGrid_moved_and_score_aux g d).1]
    apply List.any_eq_false.mpr
    intro l hl
    cases d with
    | left =>
      simp only [linesOf, List.mem_map] at hl
      obtain ⟨r, -, rfl⟩ := hl
      simp [processLine_unchanged_of_full_chain (by simp [rowOf]) (rowOf_full hfull r)
        (row_chain_of_noH hfull hH r)]
    | right =>
      simp only [linesOf, List.mem_map] at hl
      obtain ⟨r, -, rfl⟩ := hl
      have hch : List.Chain' (fun a b : Cell => a ≠ b) (rowOf g r).reverse := by
        rw [List.chain'_reverse]
        exact (row_chain_of_noH hfull hH r).imp fun a b hab => hab.symm
      simp [processLine_unchanged_of_full_chain (by simp [rowOf])
        (fun x hx => rowOf_full hfull r x (List.mem_reverse.mp hx)) hch]
    | up =>
      simp only [linesOf, List.mem_map] at hl
      obtain ⟨c, -, rfl⟩ := hl
      simp [processLine_unchanged_of_full_chain (by simp [colOf]) (colOf_full hfull c)
        (col_chain_of_noV hfull hV c)]
    | down =>
      simp only [linesOf, List.mem_map] at hl
      obtain ⟨c, -, rfl⟩ := hl
      have hch : List.Chain' (fun a b : Cell => a ≠ b) (colOf g c).reverse := by
        rw [List.chain'_reverse]
        exact (col_chain_of_noV hfull hV c).imp fun a b hab => hab.symm
      simp [processLine_unchanged_of_full_chain (by simp [colOf])
        (fun x hx => colOf_full hfull c x (List.mem_reverse.mp hx)) hch]
  · intro hmv
    rw [isGameOver_eq_true_iff]
    obtain ⟨r1, c1, ht1⟩ := hne
    have hline : ∀ d, ∀ l ∈ linesOf g d, (processLine l).changed = false := by
      intro d l hl
      have h := hmv d
      rw [(moveGrid_moved_and_score_aux g d).1] at h
      simpa using List.any_eq_false.mp h l hl
    have hrow_mixed : ∀ r : Fin 4,
        (∃ v : Nat, some v ∈ rowOf g r) → none ∈ rowOf g r → False := by
      intro r ht he
      have h1 := hline .left (rowOf g r) (rowOf_mem_left g r)
      have h2 := processLine_changed_of_mixed ht he h1
      have h3 := hline .right ((rowOf g r).reverse) (rowOf_mem_right g r)
      rw [h3] at h2
      cases h2
    have hcol_mixed : ∀ c : Fin 4,
        (∃ v : Nat, some v ∈ colOf g c) → none ∈ colOf g c → False := by
      intro c ht he
      have h1 := hline .up (colOf g c) (colOf_mem_up g c)
      have h2 := processLine_changed_of_mixed ht he h1
      have h3 := hline .down ((colOf g c).reverse) (colOf_mem_down g c)
      rw [h3] at h2
      cases h2
    have hfull : ∀ r c, g r c ≠ none := by
      intro r c hrc
      obtain ⟨v1, hv1⟩ := Option.ne_none_iff_exists'.mp ht1
      by_cases hnr : none ∈ rowOf g r1
      · exact hrow_mixed r1 ⟨v1, hv1 ▸ mem_rowOf g r1 c1⟩ hnr
      · have h4 : g r1 c ≠ none := fun h0 => hnr (h0 ▸ mem_rowOf g r1 c)
        obtain ⟨v2, hv2⟩ := Option.ne_none_iff_exists'.mp h4
        exact hcol_mixed c ⟨v2, hv2 ▸ mem_colOf g r1 c⟩ (hrc ▸ mem_colOf g r c)
    have hchainR : ∀ r, List.Chain' (fun a b : Cell => a ≠ b) (rowOf g r) := by
      intro r
      by_contra hnc
      have hch := processLine_changed_of_full_adjacent (rowOf_full hfull r) hnc
      have h1 := hline .left (rowOf g r) (rowOf_mem_left g r)
      rw [h1] at hch
      cases hch
    have hchainC : ∀ c, List.Chain' (fun a b : Cell => a ≠ b) (colOf g c) := by
      intro c
      by_contra hnc
      have hch := processLine_changed_of_full_adjacent (colOf_full hfull c) hnc
      have h1 := hline .up (colOf g c) (colOf_mem_up g c)
      rw [h1] at hch
      cases hch
    exact ⟨hfull, noH_of_chains hchainR, noV_of_chains hchainC⟩

/-- Witness for C3 at a concrete terminal board (checkerboard of 2s and 4s). -/
theorem isGameOver_iff_no_move_of_nonempty_witness :
    isGameOver gTerm = true ↔ ∀ d, (moveGrid gTerm d).moved = false :=
  isGameOver_iff_no_move_of_nonempty gTerm ⟨0, 0, by decide⟩

example : (processLine [some 2, some 2, some 2, some 2]).newLine
    = [some 4, some 4, none, none] := by decide

example : (processLine [some 2, none, some 2, some 2]).newLine
    = [some 4, some 2, none, none] := by decide

example : (processLine [some 2, none, some 2, some 2]).scoreGained = 4 := by decide

example : isGameOver createEmptyGrid = false := by decide

example : (moveGrid createEmptyGrid .left).moved = false := by decide

example : (moveGrid createEmptyGrid .right).moved = false := by decide

end Game2048
